import Mathlib

/-!
Shallow embedding of `src/git.rs` from the jilu repository: the commit walker
(`commits`), the tag collector (`tags`), and the three converters
(`Signature`, `Commit`, `Tag`), together with models of the external
collaborators they use (libgit2 objects, the semver crate, the `Error` enum
from `error.rs`).
-/

namespace Jilu

/-- Result of decoding a byte field of a repository object as text:
`absent` (the field is missing), `invalid` (bytes are not valid UTF-8),
or `valid s` (decodes to the string `s`).  The git2 string accessors
(`Signature::name`, `Commit::message`, `Tag::name`, `Tag::message`,
`Buf::as_str`, ...) return `Option<&str>`, mapping both `absent` and
`invalid` to `None`. -/
inductive RawText where
  | absent
  | invalid
  | valid (s : String)
deriving DecidableEq

/-- The `Option<&str>` view git2 accessors give of a `RawText` field. -/
def RawText.toOpt : RawText → Option String
  | .absent => none
  | .invalid => none
  | .valid s => some s

/-- A git2-level error message (model of `git2::Error`). -/
abbrev GErr := String

/-- Modelled from the spec (section 7; `error.rs` is not under `src/`): the
error kinds of `crate::Error` that `git.rs` constructs and matches on:
`Utf8Error`, `InvalidTag`, `SemVer` (semantic-version parse failure) and a
generic repository-access error wrapping a `git2::Error`; the `From`
conversion sends a `git2::Error` to the generic kind. -/
inductive Error where
  | utf8Error
  | invalidTag
  | semVer (msg : String)
  | git (msg : String)
deriving DecidableEq

/-- Modelled from the spec (`error.rs` is not under `src/`): the human
readable rendering of an `Error`, used by the skip diagnostics. -/
def Error.display : Error → String
  | .utf8Error => "invalid UTF-8 character"
  | .invalidTag => "invalid tag"
  | .semVer m => m
  | .git m => m

/-- The `.ok_or(err)` step applied to a git2 `Option<&str>` accessor result. -/
def RawText.ok_or (t : RawText) (e : Error) : Except Error String :=
  match t.toOpt with
  | some s => .ok s
  | none => .error e

instance {ε α : Type} [DecidableEq ε] [DecidableEq α] : DecidableEq (Except ε α) := fun a b =>
  match a, b with
  | .ok x, .ok y =>
    if h : x = y then .isTrue (by rw [h]) else .isFalse (by intro he; cases he; exact h rfl)
  | .ok _, .error _ => .isFalse (by intro he; cases he)
  | .error _, .ok _ => .isFalse (by intro he; cases he)
  | .error x, .error y =>
    if h : x = y then .isTrue (by rw [h]) else .isFalse (by intro he; cases he; exact h rfl)

/-- A raw git2 author/committer/tagger record (`git2::Signature`). -/
structure RawSignature where
  name : RawText
  email : RawText
  time : Int
deriving DecidableEq

/-- `Signature` of `git.rs`: an owned, validated signature.  `time` models
the `DateTime<Utc>` built by `Utc.timestamp(seconds, 0)` as the seconds
value itself. -/
structure Signature where
  email : String
  name : String
  time : Int
deriving DecidableEq

/-- `TryFrom<git2::Signature<'_>> for Signature` (`git.rs` lines 204-214):
email and name must be valid UTF-8, else `Utf8Error`; the timestamp is the
raw seconds-since-epoch interpreted as UTC. -/
def Signature.try_from (s : RawSignature) : Except Error Signature := do
  let email ← s.email.ok_or .utf8Error
  let name ← s.name.ok_or .utf8Error
  .ok { email := email, name := name, time := s.time }

/-- A raw git2 commit object (`git2::Commit`).  `short_id_buf` is the result
of `commit.as_object().short_id()` (a fallible repository operation) followed
by the UTF-8 view `Buf::as_str`.  `parent` is the first-parent id, used by
the revwalk model. -/
structure RawCommit where
  id : String
  short_id_buf : Except GErr RawText
  message : RawText
  author : RawSignature
  committer : RawSignature
  time : Int
  parent : Option String
deriving DecidableEq

/-- `Commit` of `git.rs`: an owned, validated commit. -/
structure Commit where
  id : String
  short_id : String
  message : String
  time : Int
  author : Signature
  committer : Signature
deriving DecidableEq

/-- Rust `str::trim_end` on the character list of a string: remove trailing
whitespace characters. -/
def trimEnd (s : String) : String :=
  ⟨(s.toList.reverse.dropWhile Char.isWhitespace).reverse⟩

/-- The `?` applied to `commit.as_object().short_id()`: a repository error
is converted into the generic error kind. -/
def shortIdStep (x : Except GErr RawText) : Except Error RawText :=
  match x with
  | .error e => .error (Error.git e)
  | .ok t => .ok t

/-- `TryFrom<git2::Commit<'_>> for Commit` (`git.rs` lines 150-172):
full id, abbreviated id (repository failure is fatal, invalid UTF-8 is
`Utf8Error`), message (invalid UTF-8 is `Utf8Error`, trailing whitespace
trimmed), author and committer via `Signature.try_from`, and the commit
timestamp as a UTC instant. -/
def Commit.try_from (c : RawCommit) : Except Error Commit := do
  let buf ← shortIdStep c.short_id_buf
  let short_id ← buf.ok_or .utf8Error
  let message ← c.message.ok_or .utf8Error
  let author ← Signature.try_from c.author
  let committer ← Signature.try_from c.committer
  .ok { id := c.id, short_id := short_id, message := trimEnd message,
        time := c.time, author := author, committer := committer }

/-- Modelled from the spec: a pre-release identifier of the semver crate
(an external collaborator): either a numeric identifier or an alphanumeric
identifier (kept as its character list). -/
inductive SvIdent where
  | num (n : Nat)
  | alpha (s : List Char)
deriving DecidableEq

/-- Modelled from the spec: `semver::Version` as used by `git.rs` — major,
minor, patch and the pre-release identifiers.  Build metadata does not occur
in the spec's data model and is ignored. -/
structure Version where
  major : Nat
  minor : Nat
  patch : Nat
  pre : List SvIdent
deriving DecidableEq

/-- Split a character list on a separator character. -/
def splitOnChar (sep : Char) : List Char → List (List Char)
  | [] => [[]]
  | c :: cs =>
    if c = sep then [] :: splitOnChar sep cs
    else
      match splitOnChar sep cs with
      | [] => [[c]]
      | g :: gs => (c :: g) :: gs

/-- Split a character list at the first occurrence of `sep`: the part before
it, and (when `sep` occurs) the part after it. -/
def breakAtChar (sep : Char) : List Char → List Char × Option (List Char)
  | [] => ([], none)
  | c :: cs =>
    if c = sep then ([], some cs)
    else
      let (a, b) := breakAtChar sep cs
      (c :: a, b)

/-- Characters allowed in a semver identifier: ASCII alphanumerics and
hyphen. -/
def isIdentChar (c : Char) : Bool := c.isAlpha || c.isDigit || c = '-'

/-- Decimal value of a digit list. -/
def digitsToNat (cs : List Char) : Nat :=
  cs.foldl (fun n c => n * 10 + (c.toNat - 48)) 0

/-- A strict semver numeric identifier: nonempty, all digits, and no leading
zero (unless it is the single digit 0). -/
def parseNum (cs : List Char) : Option Nat :=
  if cs.isEmpty then none
  else if cs.all Char.isDigit then
    if cs.head? = some '0' ∧ 1 < cs.length then none
    else some (digitsToNat cs)
  else none

/-- A semver pre-release identifier: a strict numeric identifier, or a
nonempty alphanumeric identifier. -/
def parseIdent (cs : List Char) : Option SvIdent :=
  if cs.isEmpty then none
  else if cs.all Char.isDigit then
    if cs.head? = some '0' ∧ 1 < cs.length then none
    else some (.num (digitsToNat cs))
  else if cs.all isIdentChar then some (.alpha cs)
  else none

/-- A build-metadata identifier: nonempty, identifier characters (leading
zeros allowed). -/
def validBuildIdent (cs : List Char) : Bool :=
  !cs.isEmpty && cs.all isIdentChar

/-- Modelled from the spec: `semver::Version::parse` (the semver crate is an
external collaborator) applied as in `git.rs` — standard semantic-version
syntax `MAJOR.MINOR.PATCH[-PRE][+BUILD]`; failure maps through the crate's
error type into `Error::SemVer`. -/
def Version.parse (s : String) : Except Error Version :=
  let (beforeBuild, build?) := breakAtChar '+' s.toList
  let buildOk : Bool :=
    match build? with
    | none => true
    | some b => (splitOnChar '.' b).all validBuildIdent
  let (core, pre?) := breakAtChar '-' beforeBuild
  let preIdents : Option (List SvIdent) :=
    match pre? with
    | none => some []
    | some p => (splitOnChar '.' p).mapM parseIdent
  match splitOnChar '.' core, preIdents, buildOk with
  | [ma, mi, pa], some pre, true =>
    match parseNum ma, parseNum mi, parseNum pa with
    | some major, some minor, some patch =>
      .ok { major := major, minor := minor, patch := patch, pre := pre }
    | _, _, _ => .error (.semVer "unexpected character while parsing version")
  | _, _, _ => .error (.semVer "unexpected character while parsing version")

/-- The argument `git.rs` passes to `Version::parse`: the tag name with one
leading `v` stripped when present (`if name.starts_with('v') { &name[1..] }
else { &name }`). -/
def stripLeadingV (name : String) : String :=
  match name.toList with
  | 'v' :: rest => ⟨rest⟩
  | _ => name

/-- Lexicographic comparison of two lists by an element comparator: compare
element-wise; when one list is a strict leading part of the other, the
shorter list compares smaller.  This is the semver rule for comparing two
nonempty pre-release identifier sequences. -/
def listCmp (cmp : α → α → Ordering) : List α → List α → Ordering
  | [], [] => .eq
  | [], _ :: _ => .lt
  | _ :: _, [] => .gt
  | a :: as, b :: bs => (cmp a b).then (listCmp cmp as bs)

open Batteries

instance (cmp : α → α → Ordering) [OrientedCmp cmp] : OrientedCmp (listCmp cmp) where
  symm as bs := by
    induction as generalizing bs with
    | nil => cases bs <;> rfl
    | cons a as ih =>
      cases bs with
      | nil => rfl
      | cons b bs =>
        simp only [listCmp, Ordering.swap_then, OrientedCmp.symm, ih]

instance (cmp : α → α → Ordering) [inst : TransCmp cmp] : TransCmp (listCmp cmp) where
  le_trans {as} := by
    induction as with
    | nil => intro bs cs _ _; cases bs <;> cases cs <;> simp [listCmp]
    | cons a as ih =>
      intro bs cs h1 h2
      cases bs with
      | nil => cases h1 (by rfl)
      | cons b bs =>
        cases cs with
        | nil => cases h2 (by rfl)
        | cons c cs =>
          simp only [listCmp, ne_eq, Ordering.then_eq_gt, not_or, not_and] at h1 h2 ⊢
          refine ⟨inst.le_trans h1.1 h2.1, fun e1 e2 => ?_⟩
          match ab : cmp a b with
          | .gt => exact h1.1 ab
          | .eq => exact ih (h1.2 ab) (h2.2 (inst.cmp_congr_left ab ▸ e1)) e2
          | .lt => exact h2.1 <| (inst.cmp_eq_gt).2 (inst.cmp_congr_left e1 ▸ ab)

/-- Character comparison by code point (agrees with byte-wise UTF-8 order). -/
def charCmp : Char → Char → Ordering := compareOn Char.toNat

instance : TransCmp charCmp :=
  inferInstanceAs (TransCmp (compareOn Char.toNat))

/-- Modelled from the spec: semver precedence on single pre-release
identifiers — numeric identifiers compare numerically and rank below every
alphanumeric identifier; alphanumeric identifiers compare lexically in ASCII
order. -/
def SvIdent.cmp : SvIdent → SvIdent → Ordering
  | .num a, .num b => compare a b
  | .num _, .alpha _ => .lt
  | .alpha _, .num _ => .gt
  | .alpha a, .alpha b => listCmp charCmp a b

instance : OrientedCmp SvIdent.cmp where
  symm x y := by
    cases x <;> cases y <;>
      first
      | exact @OrientedCmp.symm Nat compare _ _ _
      | exact @OrientedCmp.symm _ (listCmp charCmp) _ _ _
      | rfl

instance : TransCmp SvIdent.cmp where
  le_trans {x y z} h1 h2 := by
    cases x <;> cases y <;> cases z <;>
      simp only [SvIdent.cmp] at h1 h2 ⊢ <;>
      first
      | exact @TransCmp.le_trans Nat compare _ _ _ _ h1 h2
      | exact @TransCmp.le_trans _ (listCmp charCmp) _ _ _ _ h1 h2
      | exact absurd rfl h1
      | exact absurd rfl h2
      | exact h1
      | exact h2

/-- Modelled from the spec: semver precedence on pre-release sequences — an
empty pre-release (a normal version) ranks above any nonempty one; two
nonempty sequences compare lexicographically. -/
def preCmp : List SvIdent → List SvIdent → Ordering
  | [], [] => .eq
  | [], _ :: _ => .gt
  | _ :: _, [] => .lt
  | a :: as, b :: bs => listCmp SvIdent.cmp (a :: as) (b :: bs)

instance : OrientedCmp preCmp where
  symm as bs := by
    cases as <;> cases bs <;>
      first
      | rfl
      | exact @OrientedCmp.symm _ (listCmp SvIdent.cmp) _ _ _

instance : TransCmp preCmp where
  le_trans {as bs cs} h1 h2 := by
    cases as <;> cases bs <;> cases cs <;>
      simp only [preCmp] at h1 h2 ⊢ <;>
      first
      | exact @TransCmp.le_trans _ (listCmp SvIdent.cmp) _ _ _ _ h1 h2
      | exact absurd rfl h1
      | exact absurd rfl h2
      | exact h1
      | exact h2

/-- Modelled from the spec: standard semantic-version comparison — major,
then minor, then patch, then pre-release precedence. -/
def Version.cmp (a b : Version) : Ordering :=
  (compare a.major b.major).then
    ((compare a.minor b.minor).then
      ((compare a.patch b.patch).then (preCmp a.pre b.pre)))

instance : TransCmp Version.cmp :=
  inferInstanceAs (TransCmp (compareLex (Ordering.byKey Version.major compare)
    (compareLex (Ordering.byKey Version.minor compare)
      (compareLex (Ordering.byKey Version.patch compare)
        (Ordering.byKey Version.pre preCmp)))))

/-- The sort order `tags` passes to `sort_by`: compare two tags by their
parsed versions (`|a, b| a.version.cmp(&b.version)`), as a `≤` relation. -/
def tagVersionLE {τ : Type} (version : τ → Version) (a b : τ) : Prop :=
  Version.cmp (version a) (version b) ≠ .gt

/-- `git2::ObjectType`. -/
inductive ObjectType where
  | any
  | commit
  | tree
  | blob
  | tag
deriving DecidableEq

/-- Outcome of `tag.target()` followed by `into_commit()` on the target of an
annotated tag: the lookup itself can fail with a `git2::Error`, the fetched
object may turn out not to be a commit, or it is a commit. -/
inductive TargetResult where
  | err (e : GErr)
  | nonCommit
  | commit (c : RawCommit)
deriving DecidableEq

/-- A raw annotated tag object (`git2::Tag`). -/
structure RawTag where
  id : String
  name : RawText
  message : RawText
  target_type : Option ObjectType
  tagger : Option RawSignature
  target : TargetResult
deriving DecidableEq

/-- `Tag` of `git.rs`: an owned, validated release tag. -/
structure Tag where
  id : String
  message : Option String
  name : String
  version : Version
  tagger : Option Signature
  commit : Commit
deriving DecidableEq

/-- `tag.tagger().map(TryInto::try_into).transpose()?`: convert the tagger
signature when there is one. -/
def taggerStep (x : Option RawSignature) : Except Error (Option Signature) :=
  match x with
  | none => .ok none
  | some s => (Signature.try_from s).map some

/-- `tag.target()?.into_commit().map_err(...)?.try_into()?`: fetch the
target object, require it to be a commit, and convert it. -/
def targetStep (x : TargetResult) : Except Error Commit :=
  match x with
  | .err e => .error (Error.git e)
  | .nonCommit => .error (Error.git "tag does not point to commit")
  | .commit c => Commit.try_from c

/-- `TryFrom<git2::Tag<'_>> for Tag` (`git.rs` lines 174-202): reject tags
whose target type is not commit with `InvalidTag`; require a UTF-8 name;
parse the version from the name with one leading `v` stripped; copy the
optional message as git2 exposes it (`tag.message().map(str::to_owned)`,
which is `None` for a missing or non-UTF-8 message); convert the optional
tagger and the target commit. -/
def Tag.try_from_tag (t : RawTag) : Except Error Tag :=
  if t.target_type ≠ some ObjectType.commit then .error .invalidTag
  else do
    let name ← t.name.ok_or .utf8Error
    let version ← Version.parse (stripLeadingV name)
    let tagger ← taggerStep t.tagger
    let commit ← targetStep t.target
    .ok { id := t.id, message := t.message.toOpt, name := name,
          version := version, tagger := tagger, commit := commit }

/-- `TryFrom<(&str, git2::Commit<'_>)> for Tag` (`git.rs` lines 215-234),
the lightweight-tag path: parse the version from the ref name with one
leading `v` stripped; no message; the tagger is synthesized from the target
commit's author; the id is the target commit's hash. -/
def Tag.try_from_lightweight (name : String) (c : RawCommit) : Except Error Tag := do
  let version ← Version.parse (stripLeadingV name)
  let tagger ← (Signature.try_from c.author).map some
  let commit ← Commit.try_from c
  .ok { id := c.id, message := none, name := name,
        version := version, tagger := tagger, commit := commit }

/-- An object produced by `revparse_single`, classified by `object.kind()`:
a tag object, a commit object, or an object of any other (or unknown)
kind. -/
inductive RObject where
  | tag (t : RawTag)
  | commit (c : RawCommit)
  | other (kind : Option ObjectType)
deriving DecidableEq

/-- The repository handle as `git.rs` uses it: an object database of
commits (for `find_commit`), the current HEAD commit id (for `push_head`;
`none` makes `push_head` fail), the result of `tag_names(None)` (each entry
is `None` when the ref name is not valid UTF-8), and `revparse_single`. -/
structure Repo where
  commits : List RawCommit
  head : Option String
  tag_names : Except GErr (List (Option String))
  resolve : String → Except GErr RObject

/-- `repo.find_commit(oid)`: look the id up in the object database. -/
def Repo.find_commit (repo : Repo) (oid : String) : Except GErr RawCommit :=
  match repo.commits.find? (fun c => c.id = oid) with
  | some c => .ok c
  | none => .error ("object not found: " ++ oid)

/-- First-parent ancestor chain starting at the given id, newest first.  A
dangling parent id (one the object database cannot resolve) still appears in
the chain; the walker's `find_commit` then fails on it.  The fuel bounds the
recursion; with fuel larger than the database size a chain of distinct ids
is never cut short. -/
def Repo.chainFrom (repo : Repo) : Nat → Option String → List String
  | _, none => []
  | 0, some _ => []
  | fuel + 1, some oid =>
    match repo.find_commit oid with
    | .error _ => [oid]
    | .ok c => oid :: repo.chainFrom fuel c.parent

/-- Modelled from the spec: the libgit2 revwalk as configured by `commits`
(`push_head`, `simplify_first_parent`, `Sort::REVERSE | Sort::TOPOLOGICAL`)
yields the ids of the first-parent ancestor chain of HEAD, oldest first. -/
def Repo.revwalk (repo : Repo) : List String :=
  (repo.chainFrom (repo.commits.length + 1) repo.head).reverse

/-- The per-item body of the `walk.map(...)` stage of `commits` (`git.rs`
lines 59-66) applied to a successfully produced oid: find the commit and
convert it, pairing any error with the oid that caused it. -/
def processOid (repo : Repo) (oid : String) : Except (Option String × Error) Commit :=
  match repo.find_commit oid with
  | .error e => .error (some oid, Error.git e)
  | .ok rc =>
    match Commit.try_from rc with
    | .error e => .error (some oid, e)
    | .ok c => .ok c

/-- How the `filter_map` stage treats one per-entry result: keep the value,
skip it with a diagnostic line, or abort with a fatal error. -/
inductive Step (α : Type) where
  | keep (a : α)
  | skip (diag : String)
  | fatal (e : Error)
deriving DecidableEq

/-- Whether a classified entry aborts the pipeline. -/
def Step.isFatal {α : Type} : Step α → Bool
  | .fatal _ => true
  | _ => false

/-- The value a classified entry contributes to the collected output. -/
def Step.kept {α : Type} : Step α → Option α
  | .keep a => some a
  | _ => none

/-- The skip diagnostic of `commits` (`git.rs` lines 72-76). -/
def commitDiag (oid : Option String) (e : Error) : String :=
  "[debug] ignoring bad commit " ++ oid.getD "" ++ ": " ++ e.display

/-- The `filter_map` classification of `commits` (`git.rs` lines 67-84):
`Utf8Error` is skipped with a diagnostic naming the offending oid; every
other error is fatal; successes are kept. -/
def commitStep : Except (Option String × Error) Commit → Step Commit
  | .ok c => .keep c
  | .error (oid, .utf8Error) => .skip (commitDiag oid .utf8Error)
  | .error (_, e) => .fatal e

/-- Run a lazily consumed `filter_map(...).collect::<Result<Vec<_>, _>>()`
pipeline: produce the diagnostics emitted and the collected result.  The
first fatal entry stops consumption, so nothing after it is processed and
no partial sequence survives. -/
def runPipe (step : α → Step β) : List α → List String × Except Error (List β)
  | [] => ([], .ok [])
  | x :: xs =>
    match step x with
    | .fatal e => ([], .error e)
    | .skip d => (d :: (runPipe step xs).1, (runPipe step xs).2)
    | .keep b => ((runPipe step xs).1, (runPipe step xs).2.map (b :: ·))

/-- The walk-and-filter pipeline of `commits` over the revwalk output. -/
def commitsRun (repo : Repo) : List String × Except Error (List Commit) :=
  runPipe (fun oid => commitStep (processOid repo oid)) repo.revwalk

/-- `commits(repo)` (`git.rs` lines 51-86): fail when there is no HEAD to
push, otherwise walk the first-parent chain oldest first, convert each
commit, skip `Utf8Error` entries and abort on any other failure. -/
def commits (repo : Repo) : Except Error (List Commit) :=
  match repo.head with
  | none => .error (Error.git "reference not found")
  | some _ => (commitsRun repo).2

/-- The diagnostic lines `commits(repo)` writes to the error stream. -/
def commitsDiags (repo : Repo) : List String :=
  match repo.head with
  | none => []
  | some _ => (commitsRun repo).1

/-- A value of a computation that may instead end in a Rust panic. -/
inductive RunResult (α : Type) where
  | panicked (msg : String)
  | value (v : α)
deriving DecidableEq

/-- Attach the offending ref name to a per-entry conversion error (`git.rs`
line 122). -/
def mapErrName (name : String) : Except Error Tag → Except (Option String × Error) Tag :=
  Except.mapError (fun e => (some name, e))

/-- The per-name body of the `map(...)` stage of `tags` (`git.rs` lines
103-124): a missing (non-UTF-8) name is a `Utf8Error` with no name
attached; otherwise resolve the name and dispatch on the object kind —
tag objects through the annotated converter, commit objects through the
lightweight converter, and any other kind hits `unreachable!()`. -/
def processName (repo : Repo) : Option String → RunResult (Except (Option String × Error) Tag)
  | none => .value (.error (none, Error.utf8Error))
  | some name =>
    match repo.resolve name with
    | .error e => .value (.error (some name, Error.git e))
    | .ok (.tag t) => .value (mapErrName name (Tag.try_from_tag t))
    | .ok (.commit c) => .value (mapErrName name (Tag.try_from_lightweight name c))
    | .ok (.other _) => .panicked "internal error: entered unreachable code"

/-- The skip diagnostic of `tags` (`git.rs` lines 130-134). -/
def tagDiag (name : Option String) (e : Error) : String :=
  "[debug] ignoring bad tag " ++ name.getD "" ++ ": " ++ e.display

/-- The `filter_map` classification of `tags` (`git.rs` lines 125-143):
`Utf8Error` and `SemVer` errors are skipped with a diagnostic naming the
offending ref; every other error is fatal; successes are kept. -/
def tagClassify : Except (Option String × Error) Tag → Step Tag
  | .ok t => .keep t
  | .error (name, .utf8Error) => .skip (tagDiag name .utf8Error)
  | .error (name, .semVer m) => .skip (tagDiag name (.semVer m))
  | .error (_, e) => .fatal e

/-- A tag-name entry whose processing neither panics nor yields a fatal
error: it is kept or skipped, and collection moves past it. -/
def entryNonFatal (repo : Repo) (n : Option String) : Prop :=
  ∃ r, processName repo n = .value r ∧ (tagClassify r).isFatal = false

/-- The lazily consumed map-filter-collect pipeline of `tags` over the tag
name list, also tracking the panic a non-tag non-commit object causes. -/
def runTagPipe (repo : Repo) : List (Option String) → List String × RunResult (Except Error (List Tag))
  | [] => ([], .value (.ok []))
  | n :: ns =>
    match processName repo n with
    | .panicked m => ([], .panicked m)
    | .value r =>
      match tagClassify r with
      | .fatal e => ([], .value (.error e))
      | .skip d => (d :: (runTagPipe repo ns).1, (runTagPipe repo ns).2)
      | .keep t =>
        ((runTagPipe repo ns).1,
         match (runTagPipe repo ns).2 with
         | .panicked m => .panicked m
         | .value res => .value (res.map (t :: ·)))

/-- The collection phase of `tags(repo)` (`git.rs` lines 100-144): the tag
list in ref-name traversal order, before sorting. -/
def tagsCollect (repo : Repo) : RunResult (Except Error (List Tag)) :=
  match repo.tag_names with
  | .error e => .value (.error (Error.git e))
  | .ok names => (runTagPipe repo names).2

/-- The sort relation of `tags.sort_by(|a, b| a.version.cmp(&b.version))`. -/
def tagLE : Tag → Tag → Prop := tagVersionLE Tag.version

instance : DecidableRel tagLE := fun a b =>
  inferInstanceAs (Decidable (Version.cmp a.version b.version ≠ .gt))

instance : IsTrans Tag tagLE :=
  ⟨fun _ _ _ h1 h2 => @TransCmp.le_trans _ Version.cmp _ _ _ _ h1 h2⟩

instance : IsTotal Tag tagLE := by
  refine ⟨fun a b => ?_⟩
  rcases h : Version.cmp a.version b.version with _ | _ | _
  · exact .inl (by simp [tagLE, tagVersionLE, h])
  · exact .inl (by simp [tagLE, tagVersionLE, h])
  · refine .inr ?_
    have h2 : Version.cmp b.version a.version = .lt :=
      (@OrientedCmp.cmp_eq_gt _ Version.cmp _ _ _).1 h
    simp [tagLE, tagVersionLE, h2]

/-- `tags(repo)` (`git.rs` lines 99-148): collect, then sort the surviving
tags by version with a stable sort (`Vec::sort_by`, modelled by the stable
`List.insertionSort`). -/
def tags (repo : Repo) : RunResult (Except Error (List Tag)) :=
  match tagsCollect repo with
  | .panicked m => .panicked m
  | .value (.error e) => .value (.error e)
  | .value (.ok ts) => .value (.ok (ts.insertionSort tagLE))

/-- The diagnostic lines `tags(repo)` writes to the error stream. -/
def tagsDiags (repo : Repo) : List String :=
  match repo.tag_names with
  | .error _ => []
  | .ok names => (runTagPipe repo names).1

/-! Concrete repository fixtures used by the witness theorems. -/

/-- A well-formed raw signature. -/
def sigRawOk : RawSignature :=
  { name := .valid "Ada", email := .valid "ada@example.com", time := 10 }

/-- The conversion of `sigRawOk`. -/
def sigOk : Signature := { email := "ada@example.com", name := "Ada", time := 10 }

/-- Root commit of the example history. -/
def rawCommitA : RawCommit :=
  { id := "aaaa0001", short_id_buf := .ok (.valid "aaaa"),
    message := .valid "feat: one\n", author := sigRawOk, committer := sigRawOk,
    time := 100, parent := none }

/-- Child of `rawCommitA`. -/
def rawCommitB : RawCommit :=
  { id := "bbbb0002", short_id_buf := .ok (.valid "bbbb"),
    message := .valid "feat: two", author := sigRawOk, committer := sigRawOk,
    time := 200, parent := some "aaaa0001" }

/-- Head commit whose message bytes are not valid UTF-8. -/
def rawCommitBadMsg : RawCommit :=
  { id := "cccc0003", short_id_buf := .ok (.valid "cccc"),
    message := .invalid, author := sigRawOk, committer := sigRawOk,
    time := 300, parent := some "bbbb0002" }

/-- The conversion of `rawCommitA`. -/
def commitA : Commit :=
  { id := "aaaa0001", short_id := "aaaa", message := "feat: one",
    time := 100, author := sigOk, committer := sigOk }

/-- The conversion of `rawCommitB`. -/
def commitB : Commit :=
  { id := "bbbb0002", short_id := "bbbb", message := "feat: two",
    time := 200, author := sigOk, committer := sigOk }

/-- Three-commit first-parent history whose newest commit has a bad
message; two lightweight release tags, a tag whose name is not a version,
and a tag ref name that is not valid UTF-8. -/
def repoEx : Repo :=
  { commits := [rawCommitA, rawCommitB, rawCommitBadMsg],
    head := some "cccc0003",
    tag_names := .ok [some "v0.2.0", some "not-a-version", none, some "v0.1.0"],
    resolve := fun n =>
      if n = "v0.2.0" then .ok (.commit rawCommitB)
      else if n = "v0.1.0" then .ok (.commit rawCommitA)
      else if n = "not-a-version" then .ok (.commit rawCommitA)
      else .error "revspec not found" }

/-- The lightweight tag `v0.1.0` of `repoEx` after conversion. -/
def tag010 : Tag :=
  { id := "aaaa0001", message := none, name := "v0.1.0",
    version := { major := 0, minor := 1, patch := 0, pre := [] },
    tagger := some sigOk, commit := commitA }

/-- The lightweight tag `v0.2.0` of `repoEx` after conversion. -/
def tag020 : Tag :=
  { id := "bbbb0002", message := none, name := "v0.2.0",
    version := { major := 0, minor := 2, patch := 0, pre := [] },
    tagger := some sigOk, commit := commitB }

/-- A commit whose abbreviated-id lookup fails in the object database. -/
def rawCommitFatalA : RawCommit :=
  { id := "aaaa000f", short_id_buf := .error "cannot allocate buffer",
    message := .valid "x", author := sigRawOk, committer := sigRawOk,
    time := 1, parent := none }

/-- Like `rawCommitFatalA` but a different commit id, failing identically. -/
def rawCommitFatalB : RawCommit :=
  { id := "bbbb000f", short_id_buf := .error "cannot allocate buffer",
    message := .valid "x", author := sigRawOk, committer := sigRawOk,
    time := 1, parent := none }

/-- A repository whose only commit is `rawCommitFatalA`. -/
def repoFatalA : Repo :=
  { commits := [rawCommitFatalA], head := some "aaaa000f",
    tag_names := .ok [], resolve := fun _ => .error "revspec not found" }

/-- A repository whose only commit is `rawCommitFatalB`. -/
def repoFatalB : Repo :=
  { commits := [rawCommitFatalB], head := some "bbbb000f",
    tag_names := .ok [], resolve := fun _ => .error "revspec not found" }

/-- An annotated tag object whose target is a tree. -/
def rawTagTree : RawTag :=
  { id := "dddd0004", name := .valid "v1.0.0", message := .valid "bad target",
    target_type := some .tree, tagger := some sigRawOk, target := .nonCommit }

/-- An annotated tag object with a non-UTF-8 message, pointing at
`rawCommitA`. -/
def rawTagAnn : RawTag :=
  { id := "eeee0005", name := .valid "v0.3.0", message := .invalid,
    target_type := some .commit, tagger := some sigRawOk,
    target := .commit rawCommitA }

/-- The conversion of `rawTagAnn`: the invalid message is dropped. -/
def tag030 : Tag :=
  { id := "eeee0005", message := none, name := "v0.3.0",
    version := { major := 0, minor := 3, patch := 0, pre := [] },
    tagger := some sigOk, commit := commitA }

/-- A repository with an annotated tag `v1.0.0` whose target is a tree,
alongside a good lightweight tag. -/
def repoTreeTag : Repo :=
  { commits := [rawCommitA], head := some "aaaa0001",
    tag_names := .ok [some "v0.1.0", some "v1.0.0"],
    resolve := fun n =>
      if n = "v1.0.0" then .ok (.tag rawTagTree)
      else if n = "v0.1.0" then .ok (.commit rawCommitA)
      else .error "revspec not found" }

/-- An annotated tag object like `rawTagTree` but under a different name:
it fails identically. -/
def rawTagTree2 : RawTag :=
  { id := "ffff0006", name := .valid "v2.0.0", message := .valid "bad target",
    target_type := some .tree, tagger := some sigRawOk, target := .nonCommit }

/-- A repository with an annotated tag `v2.0.0` whose target is a tree. -/
def repoTreeTag2 : Repo :=
  { commits := [rawCommitA], head := some "aaaa0001",
    tag_names := .ok [some "v2.0.0"],
    resolve := fun n =>
      if n = "v2.0.0" then .ok (.tag rawTagTree2)
      else .error "revspec not found" }

/-- An annotated tag whose name is not a semantic version. -/
def rawTagBadName : RawTag :=
  { id := "abab0007", name := .valid "one.two", message := .absent,
    target_type := some .commit, tagger := some sigRawOk,
    target := .commit rawCommitA }

/-- An annotated tag whose name bytes are not valid UTF-8. -/
def rawTagBadUtf8Name : RawTag :=
  { id := "acac0008", name := .invalid, message := .absent,
    target_type := some .commit, tagger := some sigRawOk,
    target := .commit rawCommitA }

/-- A raw signature whose name bytes are not valid UTF-8. -/
def sigRawBad : RawSignature :=
  { name := .invalid, email := .valid "bad@example.com", time := 20 }

/-- An annotated tag with a well-formed name but a tagger signature whose
name is not valid UTF-8. -/
def rawTagBadTagger : RawTag :=
  { id := "adad0009", name := .valid "v0.4.0", message := .absent,
    target_type := some .commit, tagger := some sigRawBad,
    target := .commit rawCommitA }

/-- A repository in which one tag ref resolves to a tree object directly:
the branch guarded by `unreachable!()` is taken. -/
def repoOtherKind : Repo :=
  { commits := [rawCommitA], head := some "aaaa0001",
    tag_names := .ok [some "v0.1.0", some "v9.9.9"],
    resolve := fun n =>
      if n = "v9.9.9" then .ok (.other (some .tree))
      else if n = "v0.1.0" then .ok (.commit rawCommitA)
      else .error "revspec not found" }

/-! Helper lemmas about the embedding. -/

theorem except_bind_ok {ε α β : Type} {x : Except ε α} {f : α → Except ε β} {b : β} :
    x >>= f = .ok b ↔ ∃ a, x = .ok a ∧ f a = .ok b := by
  cases x <;> simp [Bind.bind, Except.bind]

theorem except_map_ok {ε α β : Type} {f : α → β} {x : Except ε α} {b : β} :
    Except.map f x = .ok b ↔ ∃ a, x = .ok a ∧ f a = b := by
  cases x <;> simp [Except.map]

theorem except_toOption_eq_some {ε α : Type} {x : Except ε α} {a : α} :
    x.toOption = some a ↔ x = .ok a := by
  cases x <;> simp [Except.toOption]

theorem ok_or_ok {t : RawText} {e : Error} {s : String} :
    t.ok_or e = .ok s ↔ t = .valid s := by
  cases t <;> simp [RawText.ok_or, RawText.toOpt]

theorem shortIdStep_ok {x : Except GErr RawText} {t : RawText} :
    shortIdStep x = .ok t ↔ x = .ok t := by
  cases x <;> simp [shortIdStep]

theorem step_kept_keep {α : Type} (a : α) : (Step.keep a).kept = some a := rfl

theorem step_kept_skip {α : Type} (d : String) : (Step.skip d : Step α).kept = none := rfl

theorem step_kept_fatal {α : Type} (e : Error) : (Step.fatal e : Step α).kept = none := rfl

theorem runPipe_ok_eq {α β : Type} {step : α → Step β} {l : List α} {out : List β}
    (h : (runPipe step l).2 = .ok out) :
    out = l.filterMap (fun x => (step x).kept) := by
  induction l generalizing out with
  | nil =>
    simp only [runPipe] at h
    cases h
    simp
  | cons x xs ih =>
    cases hs : step x with
    | fatal e => rw [runPipe, hs] at h; cases h
    | skip d =>
      rw [runPipe, hs] at h
      simp only [List.filterMap_cons, hs, step_kept_skip]
      exact ih h
    | keep b =>
      rw [runPipe, hs] at h
      rcases hr : (runPipe step xs).2 with e | out'
      · rw [hr] at h; cases h
      · rw [hr] at h
        cases h
        simp only [List.filterMap_cons, hs, step_kept_keep]
        rw [← ih hr]

theorem runPipe_skip_snd {α β : Type} {step : α → Step β} {x : α} {d : String}
    (h : step x = .skip d) (pre rest : List α) :
    (runPipe step (pre ++ x :: rest)).2 = (runPipe step (pre ++ rest)).2 := by
  induction pre with
  | nil => simp [runPipe, h]
  | cons y pre ih => cases hy : step y <;> simp [runPipe, hy, ih]

theorem runPipe_skip_diag_mem {α β : Type} {step : α → Step β} {x : α} {d : String}
    (h : step x = .skip d) (pre rest : List α)
    (hpre : ∀ y ∈ pre, (step y).isFatal = false) :
    d ∈ (runPipe step (pre ++ x :: rest)).1 := by
  induction pre with
  | nil => simp [runPipe, h]
  | cons y pre ih =>
    have hy' := hpre y (by simp)
    cases hy : step y with
    | fatal e => rw [hy] at hy'; simp [Step.isFatal] at hy'
    | skip d2 =>
      simp only [List.cons_append, runPipe, hy]
      exact List.mem_cons_of_mem _ (ih (fun z hz => hpre z (by simp [hz])))
    | keep b =>
      simp only [List.cons_append, runPipe, hy]
      exact ih (fun z hz => hpre z (by simp [hz]))

theorem runPipe_fatal_snd {α β : Type} {step : α → Step β} {x : α} {e : Error}
    (h : step x = .fatal e) (pre rest : List α)
    (hpre : ∀ y ∈ pre, (step y).isFatal = false) :
    (runPipe step (pre ++ x :: rest)).2 = .error e := by
  induction pre with
  | nil => simp [runPipe, h]
  | cons y pre ih =>
    have hy' := hpre y (by simp)
    have ih' := ih (fun z hz => hpre z (by simp [hz]))
    cases hy : step y with
    | fatal e2 => rw [hy] at hy'; simp [Step.isFatal] at hy'
    | skip d2 => simpa [runPipe, hy] using ih'
    | keep b => simp [runPipe, hy, ih', Except.map]

theorem runTagPipe_skip_snd (repo : Repo) {n : Option String} {r : Except (Option String × Error) Tag}
    {d : String} (hr : processName repo n = .value r) (hc : tagClassify r = .skip d)
    (pre rest : List (Option String)) :
    (runTagPipe repo (pre ++ n :: rest)).2 = (runTagPipe repo (pre ++ rest)).2 := by
  induction pre with
  | nil => simp [runTagPipe, hr, hc]
  | cons y pre ih =>
    cases hy : processName repo y with
    | panicked m => simp [runTagPipe, hy]
    | value ry => cases hcy : tagClassify ry <;> simp [runTagPipe, hy, hcy, ih]

theorem runTagPipe_skip_diag_mem (repo : Repo) {n : Option String}
    {r : Except (Option String × Error) Tag} {d : String}
    (hr : processName repo n = .value r) (hc : tagClassify r = .skip d)
    (pre rest : List (Option String)) (hpre : ∀ y ∈ pre, entryNonFatal repo y) :
    d ∈ (runTagPipe repo (pre ++ n :: rest)).1 := by
  induction pre with
  | nil => simp [runTagPipe, hr, hc]
  | cons y pre ih =>
    obtain ⟨ry, hry, hnf⟩ := hpre y (by simp)
    have ih' := ih (fun z hz => hpre z (by simp [hz]))
    cases hcy : tagClassify ry with
    | fatal e => rw [hcy] at hnf; simp [Step.isFatal] at hnf
    | skip d2 =>
      simp only [List.cons_append, runTagPipe, hry, hcy]
      exact List.mem_cons_of_mem _ ih'
    | keep t =>
      simp only [List.cons_append, runTagPipe, hry, hcy]
      exact ih'

theorem runTagPipe_fatal_snd (repo : Repo) {n : Option String}
    {r : Except (Option String × Error) Tag} {e : Error}
    (hr : processName repo n = .value r) (hc : tagClassify r = .fatal e)
    (pre rest : List (Option String)) (hpre : ∀ y ∈ pre, entryNonFatal repo y) :
    (runTagPipe repo (pre ++ n :: rest)).2 = .value (.error e) := by
  induction pre with
  | nil => simp [runTagPipe, hr, hc]
  | cons y pre ih =>
    obtain ⟨ry, hry, hnf⟩ := hpre y (by simp)
    have ih' := ih (fun z hz => hpre z (by simp [hz]))
    cases hcy : tagClassify ry with
    | fatal e2 => rw [hcy] at hnf; simp [Step.isFatal] at hnf
    | skip d2 => simpa [runTagPipe, hry, hcy] using ih'
    | keep t => simp [runTagPipe, hry, hcy, ih', Except.map]

theorem runTagPipe_panic_snd (repo : Repo) {n : Option String} {m : String}
    (hr : processName repo n = .panicked m)
    (pre rest : List (Option String)) (hpre : ∀ y ∈ pre, entryNonFatal repo y) :
    (runTagPipe repo (pre ++ n :: rest)).2 = .panicked m := by
  induction pre with
  | nil => simp [runTagPipe, hr]
  | cons y pre ih =>
    obtain ⟨ry, hry, hnf⟩ := hpre y (by simp)
    have ih' := ih (fun z hz => hpre z (by simp [hz]))
    cases hcy : tagClassify ry with
    | fatal e2 => rw [hcy] at hnf; simp [Step.isFatal] at hnf
    | skip d2 => simpa [runTagPipe, hry, hcy] using ih'
    | keep t => simp [runTagPipe, hry, hcy, ih']

theorem runTagPipe_no_panic (repo : Repo) (ns : List (Option String))
    (h : ∀ n ∈ ns, ∀ m, processName repo n ≠ .panicked m) :
    ∃ v, (runTagPipe repo ns).2 = .value v := by
  induction ns with
  | nil => exact ⟨.ok [], rfl⟩
  | cons n ns ih =>
    obtain ⟨v, hv⟩ := ih (fun z hz => h z (by simp [hz]))
    cases hn : processName repo n with
    | panicked m => exact absurd hn (h n (by simp) m)
    | value r =>
      cases hc : tagClassify r with
      | fatal e => exact ⟨.error e, by simp [runTagPipe, hn, hc]⟩
      | skip d => exact ⟨v, by simp [runTagPipe, hn, hc, hv]⟩
      | keep t =>
        cases v with
        | error e => exact ⟨.error e, by simp [runTagPipe, hn, hc, hv, Except.map]⟩
        | ok ts => exact ⟨.ok (t :: ts), by simp [runTagPipe, hn, hc, hv, Except.map]⟩

theorem tagsCollect_eq (repo : Repo) {names : List (Option String)}
    (h : repo.tag_names = .ok names) : tagsCollect repo = (runTagPipe repo names).2 := by
  simp [tagsCollect, h]

theorem tagsDiags_eq (repo : Repo) {names : List (Option String)}
    (h : repo.tag_names = .ok names) : tagsDiags repo = (runTagPipe repo names).1 := by
  simp [tagsDiags, h]

theorem tags_of_error {repo : Repo} {e : Error}
    (h : tagsCollect repo = .value (.error e)) : tags repo = .value (.error e) := by
  simp [tags, h]

theorem tags_of_panic {repo : Repo} {m : String}
    (h : tagsCollect repo = .panicked m) : tags repo = .panicked m := by
  simp [tags, h]

theorem tags_of_ok {repo : Repo} {ts : List Tag}
    (h : tagsCollect repo = .value (.ok ts)) :
    tags repo = .value (.ok (ts.insertionSort tagLE)) := by
  simp [tags, h]

theorem commit_try_from_ok {rc : RawCommit} {c : Commit} (h : Commit.try_from rc = .ok c) :
    c.id = rc.id ∧ rc.short_id_buf = .ok (.valid c.short_id) := by
  unfold Commit.try_from at h
  rw [except_bind_ok] at h
  obtain ⟨buf, hbuf, h⟩ := h
  rw [except_bind_ok] at h
  obtain ⟨sid, hsid, h⟩ := h
  rw [except_bind_ok] at h
  obtain ⟨msg, hmsg, h⟩ := h
  rw [except_bind_ok] at h
  obtain ⟨au, hau, h⟩ := h
  rw [except_bind_ok] at h
  obtain ⟨co, hco, h⟩ := h
  cases h
  rw [ok_or_ok] at hsid
  rw [shortIdStep_ok] at hbuf
  exact ⟨rfl, by rw [hbuf, hsid]⟩

theorem tag_try_from_tag_ok {t : RawTag} {tag : Tag} (h : Tag.try_from_tag t = .ok tag) :
    t.target_type = some .commit ∧ t.name = .valid tag.name ∧
    Version.parse (stripLeadingV tag.name) = .ok tag.version ∧
    tag.message = t.message.toOpt ∧ tag.id = t.id := by
  unfold Tag.try_from_tag at h
  split at h
  · exact Except.noConfusion h
  next hcond =>
    have hty : t.target_type = some ObjectType.commit := not_ne_iff.mp hcond
    rw [except_bind_ok] at h
    obtain ⟨name, hname, h⟩ := h
    rw [except_bind_ok] at h
    obtain ⟨ver, hver, h⟩ := h
    rw [except_bind_ok] at h
    obtain ⟨tg, htg, h⟩ := h
    rw [except_bind_ok] at h
    obtain ⟨cm, hcm, h⟩ := h
    cases h
    rw [ok_or_ok] at hname
    exact ⟨hty, hname, hver, rfl, rfl⟩

theorem tag_lightweight_ok {name : String} {c : RawCommit} {tag : Tag}
    (h : Tag.try_from_lightweight name c = .ok tag) :
    tag.name = name ∧ Version.parse (stripLeadingV name) = .ok tag.version ∧
    tag.message = none ∧ tag.id = c.id ∧
    ∃ s, Signature.try_from c.author = .ok s ∧ tag.tagger = some s := by
  unfold Tag.try_from_lightweight at h
  rw [except_bind_ok] at h
  obtain ⟨ver, hver, h⟩ := h
  rw [except_bind_ok] at h
  obtain ⟨tg, htg, h⟩ := h
  rw [except_bind_ok] at h
  obtain ⟨cm, hcm, h⟩ := h
  cases h
  rw [except_map_ok] at htg
  obtain ⟨s, hs, hsome⟩ := htg
  exact ⟨rfl, hver, rfl, rfl, s, hs, hsome.symm⟩

theorem commitStep_keep_eq (r : Except (Option String × Error) Commit) :
    (commitStep r).kept = r.toOption := by
  rcases r with p | c
  · rcases p with ⟨nm, e⟩
    cases e <;> rfl
  · rfl

theorem find_commit_mem {repo : Repo} {oid : String} {rc : RawCommit}
    (h : repo.find_commit oid = .ok rc) : rc ∈ repo.commits := by
  unfold Repo.find_commit at h
  rcases hf : repo.commits.find? (fun c => c.id = oid) with _ | c
  · rw [hf] at h; cases h
  · rw [hf] at h; cases h; exact List.mem_of_find?_eq_some hf

theorem processOid_ok {repo : Repo} {oid : String} {c : Commit}
    (h : processOid repo oid = .ok c) :
    ∃ rc, repo.find_commit oid = .ok rc ∧ Commit.try_from rc = .ok c := by
  unfold processOid at h
  rcases hf : repo.find_commit oid with e | rc
  · rw [hf] at h; cases h
  · rw [hf] at h
    dsimp only at h
    rcases ht : Commit.try_from rc with e | c'
    · rw [ht] at h; cases h
    · rw [ht] at h; cases h; exact ⟨rc, rfl, ht⟩

theorem pairwise_filter_of_forall {α : Type} {R : α → α → Prop} {p : α → Bool}
    (hp : ∀ a b, p a = true → p b = true → R a b) :
    ∀ l : List α, (l.filter p).Pairwise R := by
  intro l
  induction l with
  | nil => simp
  | cons a l ih =>
    by_cases ha : p a = true
    · rw [List.filter_cons_of_pos ha]
      exact List.Pairwise.cons (fun b hb => hp a b ha (List.of_mem_filter hb)) ih
    · rw [List.filter_cons_of_neg (by simpa using ha)]
      exact ih

theorem filter_insertionSort_eq {α : Type} (r : α → α → Prop) [DecidableRel r] (p : α → Bool)
    (hp : ∀ a b, p a = true → p b = true → r a b) (l : List α) :
    (l.insertionSort r).filter p = l.filter p := by
  have hpw : (l.filter p).Pairwise r := pairwise_filter_of_forall hp l
  have hsub : (l.filter p).Sublist (l.insertionSort r) :=
    List.sublist_insertionSort hpw (List.filter_sublist l)
  have hsub2 : (l.filter p).Sublist ((l.insertionSort r).filter p) := by
    have h2 := hsub.filter p
    rwa [List.filter_eq_self.mpr (fun a ha => List.of_mem_filter ha)] at h2
  have hperm : ((l.insertionSort r).filter p).Perm (l.filter p) :=
    (List.perm_insertionSort r l).filter p
  exact (hsub2.eq_of_length hperm.length_eq.symm).symm

theorem tagLE_of_version_eq {a b : Tag} (h : a.version = b.version) : tagLE a b := by
  have hr : Version.cmp a.version b.version = .eq := by
    rw [h]; exact @OrientedCmp.cmp_refl _ Version.cmp _ _
  simp [tagLE, tagVersionLE, hr]

theorem commits_eq_run {repo : Repo} {h0 : String} (hh : repo.head = some h0) :
    commits repo = (commitsRun repo).2 := by
  simp [commits, hh]

theorem commitsDiags_eq_run {repo : Repo} {h0 : String} (hh : repo.head = some h0) :
    commitsDiags repo = (commitsRun repo).1 := by
  simp [commitsDiags, hh]

theorem commits_ok_filterMap {repo : Repo} {l : List Commit} (h : commits repo = .ok l) :
    l = repo.revwalk.filterMap (fun oid => (processOid repo oid).toOption) := by
  rcases hh : repo.head with _ | h0
  · rw [commits, hh] at h; cases h
  · rw [commits_eq_run hh] at h
    rw [runPipe_ok_eq h]
    congr 1
    funext x
    exact commitStep_keep_eq (processOid repo x)

/-! The claims. -/

/-- C1, counterexample: the claim says the fatal error returned by
`commits()` / `tags()` carries the id of the offending commit / the
offending ref name.  It does not: two repositories whose fatal failures
originate at different commits (`aaaa000f` vs `bbbb000f`) yield the very
same error value, and two repositories whose offending annotated tags have
different ref names (`v1.0.0` vs `v2.0.0`) both yield the bare
`Error::InvalidTag`; the returned error therefore cannot identify the
offending entry. -/
theorem claim_c1_counterexample :
    (commits repoFatalA = .error (.git "cannot allocate buffer") ∧
     commits repoFatalB = .error (.git "cannot allocate buffer") ∧
     repoFatalA.head = some "aaaa000f" ∧ repoFatalB.head = some "bbbb000f") ∧
    (tags repoTreeTag = .value (.error .invalidTag) ∧
     tags repoTreeTag2 = .value (.error .invalidTag) ∧
     rawTagTree.name = .valid "v1.0.0" ∧ rawTagTree2.name = .valid "v2.0.0") := by
  refine ⟨⟨?_, ?_, ?_, ?_⟩, ?_, ?_, ?_, ?_⟩ <;> decide

/-- C1, amended: when the commit walk or the tag collection aborts with a
fatal (non-recoverable) error, the single error value returned to the
caller is the per-entry error itself, unchanged — the offending commit id
or ref name is tracked only for the skip diagnostics and is not attached
to the returned error. -/
theorem claim_c1 (repo : Repo) :
    (∀ h0 pre oid rest e, repo.head = some h0 →
      repo.revwalk = pre ++ oid :: rest →
      (∀ y ∈ pre, (commitStep (processOid repo y)).isFatal = false) →
      commitStep (processOid repo oid) = .fatal e →
      commits repo = .error e) ∧
    (∀ preT n restT r e, repo.tag_names = .ok (preT ++ n :: restT) →
      (∀ y ∈ preT, entryNonFatal repo y) →
      processName repo n = .value r →
      tagClassify r = .fatal e →
      tags repo = .value (.error e)) := by
  constructor
  · intro h0 pre oid rest e hh hw hpre hf
    rw [commits_eq_run hh, commitsRun, hw]
    exact @runPipe_fatal_snd String Commit (fun o => commitStep (processOid repo o)) _ _ hf pre rest hpre
  · intro preT n restT r e hnames hpre hr hc
    refine tags_of_error ?_
    rw [tagsCollect_eq repo hnames]
    exact runTagPipe_fatal_snd repo hr hc preT restT hpre

/-- C1, witness for the amended claim. -/
theorem claim_c1_witness :
    commits repoFatalA = .error (.git "cannot allocate buffer") ∧
    tags repoTreeTag = .value (.error .invalidTag) := by
  constructor
  · exact (claim_c1 repoFatalA).1 "aaaa000f" [] "aaaa000f" [] (.git "cannot allocate buffer")
      (by decide) (by decide) (by simp) (by decide)
  · exact (claim_c1 repoTreeTag).2 [some "v0.1.0"] (some "v1.0.0") []
      (.error (some "v1.0.0", .invalidTag)) .invalidTag (by decide)
      (by
        intro y hy
        simp only [List.mem_singleton] at hy
        subst hy
        exact ⟨.ok tag010, by decide, by decide⟩)
      (by decide) (by decide)

/-- C2: in `tags()`, a per-entry failure of kind `Utf8Error` or `SemVer`
only skips that tag (with a diagnostic naming the offending ref) and
collection continues — the collected result equals that of the name list
with the offending entry removed; whereas an annotated tag whose target is
not a commit fails with `InvalidTag`, which aborts the whole `tags()` call
with that error. -/
theorem claim_c2 (repo : Repo) (pre rest : List (Option String)) (n nm : Option String)
    (e : Error) (t : RawTag)
    (hnames : repo.tag_names = .ok (pre ++ n :: rest))
    (hpre : ∀ y ∈ pre, entryNonFatal repo y) :
    (processName repo n = .value (.error (nm, e)) →
      (e = .utf8Error ∨ ∃ m, e = .semVer m) →
      tagsCollect repo = (runTagPipe repo (pre ++ rest)).2 ∧
      tagDiag nm e ∈ tagsDiags repo) ∧
    (t.target_type ≠ some ObjectType.commit → Tag.try_from_tag t = .error .invalidTag) ∧
    (∀ name, n = some name → repo.resolve name = .ok (.tag t) →
      t.target_type ≠ some ObjectType.commit →
      tags repo = .value (.error .invalidTag)) := by
  refine ⟨?_, ?_, ?_⟩
  · intro hr he
    have hc : tagClassify (.error (nm, e)) = .skip (tagDiag nm e) := by
      rcases he with rfl | ⟨m, rfl⟩ <;> rfl
    constructor
    · rw [tagsCollect_eq repo hnames]
      exact runTagPipe_skip_snd repo hr hc pre rest
    · rw [tagsDiags_eq repo hnames]
      exact runTagPipe_skip_diag_mem repo hr hc pre rest hpre
  · intro hty
    simp [Tag.try_from_tag, hty]
  · intro name hn hres hty
    have htf : Tag.try_from_tag t = .error .invalidTag := by simp [Tag.try_from_tag, hty]
    have hr : processName repo n = .value (.error (some name, .invalidTag)) := by
      subst hn
      simp [processName, hres, mapErrName, htf, Except.mapError]
    refine tags_of_error ?_
    rw [tagsCollect_eq repo hnames]
    exact runTagPipe_fatal_snd repo hr rfl pre rest hpre

/-- C2, witness: in `repoEx` the tag `not-a-version` is skipped with a
diagnostic while collection continues, and in `repoTreeTag` the annotated
tag `v1.0.0` targeting a tree aborts the whole call. -/
theorem claim_c2_witness :
    (tagsCollect repoEx = (runTagPipe repoEx [some "v0.2.0", none, some "v0.1.0"]).2 ∧
     tagDiag (some "not-a-version") (.semVer "unexpected character while parsing version") ∈
       tagsDiags repoEx) ∧
    tags repoTreeTag = .value (.error .invalidTag) := by
  constructor
  · exact (claim_c2 repoEx [some "v0.2.0"] [none, some "v0.1.0"]
      (some "not-a-version") (some "not-a-version")
      (.semVer "unexpected character while parsing version") rawTagTree (by decide)
      (by
        intro y hy
        simp only [List.mem_singleton] at hy
        subst hy
        exact ⟨.ok tag020, by decide, by decide⟩)).1
      (by decide) (.inr ⟨_, rfl⟩)
  · exact (claim_c2 repoTreeTag [some "v0.1.0"] [] (some "v1.0.0") none .invalidTag
      rawTagTree (by decide)
      (by
        intro y hy
        simp only [List.mem_singleton] at hy
        subst hy
        exact ⟨.ok tag010, by decide, by decide⟩)).2.2
      "v1.0.0" rfl (by decide) (by decide)

/-- C3: in `commits()`, a visited commit whose conversion fails with
`Utf8Error` is skipped — the result equals that of the walk with the entry
removed, and a diagnostic line identifying the offending object id is
emitted — while a failure of any other kind aborts the entire walk and is
returned as the single error value, so no partial sequence is returned. -/
theorem claim_c3 (repo : Repo) (h0 : String) (pre rest : List String) (oid : String)
    (hh : repo.head = some h0) (hw : repo.revwalk = pre ++ oid :: rest)
    (hpre : ∀ y ∈ pre, (commitStep (processOid repo y)).isFatal = false) :
    (processOid repo oid = .error (some oid, .utf8Error) →
      commits repo = (runPipe (fun o => commitStep (processOid repo o)) (pre ++ rest)).2 ∧
      commitDiag (some oid) .utf8Error ∈ commitsDiags repo ∧
      commitDiag (some oid) .utf8Error =
        "[debug] ignoring bad commit " ++ oid ++ (": " ++ Error.display .utf8Error)) ∧
    (∀ e, commitStep (processOid repo oid) = .fatal e → commits repo = .error e) := by
  constructor
  · intro hu
    have hs : commitStep (processOid repo oid) = .skip (commitDiag (some oid) .utf8Error) := by
      rw [hu]; rfl
    refine ⟨?_, ?_, ?_⟩
    · rw [commits_eq_run hh, commitsRun, hw]
      exact @runPipe_skip_snd String Commit (fun o => commitStep (processOid repo o)) _ _ hs pre rest
    · rw [commitsDiags_eq_run hh, commitsRun, hw]
      exact @runPipe_skip_diag_mem String Commit (fun o => commitStep (processOid repo o)) _ _ hs pre rest hpre
    · simp [commitDiag, Option.getD, String.append_assoc]
  · intro e hf
    rw [commits_eq_run hh, commitsRun, hw]
    exact @runPipe_fatal_snd String Commit (fun o => commitStep (processOid repo o)) _ _ hf pre rest hpre

/-- C3, witness: in `repoEx` the head commit `cccc0003` has a non-UTF-8
message; it is skipped with a diagnostic naming it and the remaining walk
survives. -/
theorem claim_c3_witness :
    commits repoEx = (runPipe (fun o => commitStep (processOid repoEx o)) ["aaaa0001", "bbbb0002"]).2 ∧
    commitDiag (some "cccc0003") .utf8Error ∈ commitsDiags repoEx ∧
    commitDiag (some "cccc0003") .utf8Error =
      "[debug] ignoring bad commit " ++ "cccc0003" ++ (": " ++ Error.display .utf8Error) := by
  exact (claim_c3 repoEx "cccc0003" ["aaaa0001", "bbbb0002"] [] "cccc0003"
    (by decide) (by decide) (by decide)).1 (by decide)

/-- C4: the sequence returned by `tags()` is sorted ascending by parsed
semantic version (the sort relation is `Version.cmp ≠ gt`, standard semver
precedence), and the sort is stable: for every version, the tags carrying
exactly that version appear in the same relative order as in the collected
(traversal-order) sequence. -/
theorem claim_c4 (repo : Repo) (l c : List Tag)
    (hl : tags repo = .value (.ok l)) (hc : tagsCollect repo = .value (.ok c)) :
    l.Sorted tagLE ∧
    ∀ v : Version, l.filter (fun t => decide (t.version = v)) =
      c.filter (fun t => decide (t.version = v)) := by
  rw [tags_of_ok hc] at hl
  have hl' : c.insertionSort tagLE = l := by simpa using hl
  subst hl'
  constructor
  · exact List.sorted_insertionSort tagLE c
  · intro v
    refine filter_insertionSort_eq tagLE _ (fun a b ha hb => ?_) c
    have ha' : a.version = v := of_decide_eq_true ha
    have hb' : b.version = v := of_decide_eq_true hb
    exact tagLE_of_version_eq (ha'.trans hb'.symm)

/-- C4, witness: `repoEx` collects `v0.2.0` before `v0.1.0`; the returned
sequence is sorted and filtering a fixed version commutes with the sort. -/
theorem claim_c4_witness :
    List.Sorted tagLE [tag010, tag020] ∧
    [tag010, tag020].filter (fun t => decide (t.version = tag010.version)) =
      [tag020, tag010].filter (fun t => decide (t.version = tag010.version)) := by
  obtain ⟨h1, h2⟩ := claim_c4 repoEx [tag010, tag020] [tag020, tag010] (by decide) (by decide)
  exact ⟨h1, h2 tag010.version⟩

/-- C5: every `Tag` produced by either converter has a name that, stripped
of one optional leading `v`, parses to exactly `tag.version`; and a name
that fails to parse makes the converter fail with the parse error, so no
such `Tag` is produced. -/
theorem claim_c5 (t : RawTag) (name : String) (c : RawCommit) (tag tag' : Tag) :
    (Tag.try_from_tag t = .ok tag →
      Version.parse (stripLeadingV tag.name) = .ok tag.version) ∧
    (Tag.try_from_lightweight name c = .ok tag' →
      Version.parse (stripLeadingV tag'.name) = .ok tag'.version) ∧
    (∀ nm e, t.target_type = some ObjectType.commit → t.name = .valid nm →
      Version.parse (stripLeadingV nm) = .error e → Tag.try_from_tag t = .error e) ∧
    (∀ e, Version.parse (stripLeadingV name) = .error e →
      Tag.try_from_lightweight name c = .error e) := by
  refine ⟨?_, ?_, ?_, ?_⟩
  · intro h
    exact (tag_try_from_tag_ok h).2.2.1
  · intro h
    obtain ⟨hnm, hv, -⟩ := tag_lightweight_ok h
    rwa [hnm]
  · intro nm e hty hnm hp
    simp [Tag.try_from_tag, hty, hnm, RawText.ok_or, RawText.toOpt, hp,
      Bind.bind, Except.bind]
  · intro e hp
    simp [Tag.try_from_lightweight, hp, Bind.bind, Except.bind]

/-- C5, witness: the two example tags round-trip, and the two malformed
names are rejected with the parse error. -/
theorem claim_c5_witness :
    Version.parse (stripLeadingV tag030.name) = .ok tag030.version ∧
    Version.parse (stripLeadingV tag010.name) = .ok tag010.version ∧
    Tag.try_from_tag rawTagBadName =
      .error (.semVer "unexpected character while parsing version") ∧
    Tag.try_from_lightweight "not-a-version" rawCommitA =
      .error (.semVer "unexpected character while parsing version") := by
  refine ⟨?_, ?_, ?_, ?_⟩
  · exact (claim_c5 rawTagAnn "x" rawCommitA tag030 tag030).1 (by decide)
  · exact (claim_c5 rawTagTree "v0.1.0" rawCommitA tag010 tag010).2.1 (by decide)
  · exact (claim_c5 rawTagBadName "x" rawCommitA tag030 tag030).2.2.1 "one.two"
      (.semVer "unexpected character while parsing version") (by decide) (by decide) (by decide)
  · exact (claim_c5 rawTagTree "not-a-version" rawCommitA tag030 tag030).2.2.2
      (.semVer "unexpected character while parsing version") (by decide)

/-- C6: during tag collection, when every resolved object has kind tag or
commit the `unreachable!()` branch is never taken (the call produces a
value); and a ref resolving to any other kind is treated as a fatal
internal inconsistency — the whole call panics — rather than being
silently ignored. -/
theorem claim_c6 (repo : Repo) (names : List (Option String))
    (hnames : repo.tag_names = .ok names) :
    ((∀ s o, some s ∈ names → repo.resolve s = .ok o →
        (∃ t, o = .tag t) ∨ (∃ c, o = .commit c)) →
      ∃ v, tags repo = .value v) ∧
    (∀ pre s rest k, names = pre ++ some s :: rest →
      (∀ y ∈ pre, entryNonFatal repo y) →
      repo.resolve s = .ok (.other k) →
      tags repo = .panicked "internal error: entered unreachable code") := by
  constructor
  · intro hkinds
    have hnp : ∀ n ∈ names, ∀ m, processName repo n ≠ .panicked m := by
      intro n hn m
      cases n with
      | none => simp [processName]
      | some s =>
        rcases hres : repo.resolve s with e | o
        · simp [processName, hres]
        · rcases hkinds s o hn hres with ⟨t, rfl⟩ | ⟨c, rfl⟩ <;> simp [processName, hres]
    obtain ⟨v, hv⟩ := runTagPipe_no_panic repo names hnp
    have hcol : tagsCollect repo = .value v := by rw [tagsCollect_eq repo hnames]; exact hv
    cases v with
    | error e => exact ⟨.error e, tags_of_error hcol⟩
    | ok ts => exact ⟨.ok (ts.insertionSort tagLE), tags_of_ok hcol⟩
  · intro pre s rest k hdec hpre hres
    have hp : processName repo (some s) = .panicked "internal error: entered unreachable code" := by
      simp [processName, hres]
    refine tags_of_panic ?_
    rw [tagsCollect_eq repo hnames, hdec]
    exact runTagPipe_panic_snd repo hp pre rest hpre

/-- C6, witness: `repoEx` resolves every tag ref to a commit and produces a
value; `repoOtherKind`, whose ref `v9.9.9` resolves to a tree object,
panics. -/
theorem claim_c6_witness :
    (∃ v, tags repoEx = .value v) ∧
    tags repoOtherKind = .panicked "internal error: entered unreachable code" := by
  constructor
  · refine (claim_c6 repoEx [some "v0.2.0", some "not-a-version", none, some "v0.1.0"]
      (by decide)).1 ?_
    intro s o hmem hres
    simp only [List.mem_cons, List.not_mem_nil, or_false, Option.some.injEq,
      reduceCtorEq, false_or] at hmem
    rcases hmem with rfl | rfl | rfl
    · right
      have : repoEx.resolve "v0.2.0" = .ok (.commit rawCommitB) := by decide
      rw [this] at hres
      exact ⟨rawCommitB, (Except.ok.inj hres).symm⟩
    · right
      have : repoEx.resolve "not-a-version" = .ok (.commit rawCommitA) := by decide
      rw [this] at hres
      exact ⟨rawCommitA, (Except.ok.inj hres).symm⟩
    · right
      have : repoEx.resolve "v0.1.0" = .ok (.commit rawCommitA) := by decide
      rw [this] at hres
      exact ⟨rawCommitA, (Except.ok.inj hres).symm⟩
  · exact (claim_c6 repoOtherKind [some "v0.1.0", some "v9.9.9"] (by decide)).2
      [some "v0.1.0"] "v9.9.9" [] (some .tree) (by decide)
      (by
        intro y hy
        simp only [List.mem_singleton] at hy
        subst hy
        exact ⟨.ok tag010, by decide, by decide⟩)
      (by decide)

/-- C7: `commits()` emits exactly the first-parent chain of HEAD, oldest
first (the modelled revwalk), with the per-entry conversion applied and the
skipped elements removed — order preserved: a successful result equals the
`filterMap` of the conversion over the oldest-first walk sequence. -/
theorem claim_c7 (repo : Repo) (l : List Commit) (h : commits repo = .ok l) :
    l = repo.revwalk.filterMap (fun oid => (processOid repo oid).toOption) :=
  commits_ok_filterMap h

/-- C7, witness: in `repoEx` the walk yields the first-parent chain
`aaaa0001, bbbb0002, cccc0003` oldest first; the bad head commit is
dropped and the other two appear in order. -/
theorem claim_c7_witness :
    [commitA, commitB] = repoEx.revwalk.filterMap (fun oid => (processOid repoEx oid).toOption) :=
  claim_c7 repoEx [commitA, commitB] (by decide)

/-- C8: a lightweight tag converted from a (ref-name, commit) pair has no
message, a tagger equal to the converted author signature of the target
commit, and the target commit's hash as its id. -/
theorem claim_c8 (name : String) (c : RawCommit) (tag : Tag)
    (h : Tag.try_from_lightweight name c = .ok tag) :
    tag.message = none ∧ tag.id = c.id ∧
    ∃ s, Signature.try_from c.author = .ok s ∧ tag.tagger = some s := by
  obtain ⟨-, -, hmsg, hid, s, hs, htg⟩ := tag_lightweight_ok h
  exact ⟨hmsg, hid, s, hs, htg⟩

/-- C8, witness: the lightweight tag `v0.1.0` of `repoEx`. -/
theorem claim_c8_witness :
    tag010.message = none ∧ tag010.id = rawCommitA.id ∧
    ∃ s, Signature.try_from rawCommitA.author = .ok s ∧ tag010.tagger = some s :=
  claim_c8 "v0.1.0" rawCommitA tag010 (by decide)

/-- C9: assuming the abbreviated ids the repository hands out are strict
leading parts of the full hex ids (the libgit2 guarantee the spec relies
on), every `Commit` produced by the walker has `short_id` a strict
leading part of `id`. -/
theorem claim_c9 (repo : Repo) (l : List Commit)
    (hgit : ∀ rc ∈ repo.commits, ∀ s, rc.short_id_buf = .ok (.valid s) →
      ∃ r, r ≠ [] ∧ rc.id.toList = s.toList ++ r)
    (h : commits repo = .ok l) :
    ∀ cm ∈ l, ∃ r, r ≠ [] ∧ cm.id.toList = cm.short_id.toList ++ r := by
  intro cm hcm
  rw [commits_ok_filterMap h] at hcm
  obtain ⟨oid, hoid, hf⟩ := List.mem_filterMap.mp hcm
  rw [except_toOption_eq_some] at hf
  obtain ⟨rc, hfind, htf⟩ := processOid_ok hf
  obtain ⟨hid, hbuf⟩ := commit_try_from_ok htf
  obtain ⟨r, hr, heq⟩ := hgit rc (find_commit_mem hfind) cm.short_id hbuf
  exact ⟨r, hr, by rw [hid, heq]⟩

/-- C9, witness: in `repoEx`, applied to the produced commit `commitA`. -/
theorem claim_c9_witness :
    ∃ r, r ≠ [] ∧ commitA.id.toList = commitA.short_id.toList ++ r := by
  refine claim_c9 repoEx [commitA, commitB] ?_ (by decide) commitA (by simp)
  intro rc hrc s hs
  simp only [repoEx, List.mem_cons, List.not_mem_nil, or_false] at hrc
  rcases hrc with rfl | rfl | rfl
  · have hs' : s = "aaaa" := by simpa [rawCommitA] using hs.symm
    subst hs'
    exact ⟨['0', '0', '0', '1'], by decide, by decide⟩
  · have hs' : s = "bbbb" := by simpa [rawCommitB] using hs.symm
    subst hs'
    exact ⟨['0', '0', '0', '2'], by decide, by decide⟩
  · have hs' : s = "cccc" := by simpa [rawCommitBadMsg] using hs.symm
    subst hs'
    exact ⟨['0', '0', '0', '3'], by decide, by decide⟩

/-- C10: converting an annotated tag whose message bytes are present but
not valid UTF-8 behaves exactly as if the message were absent — the
conversion succeeds with `message = none` — whereas invalid UTF-8 in the
tag name, or in the tagger signature's name, fails the whole conversion
with `Utf8Error`. -/
theorem claim_c10 (t : RawTag) (tag : Tag) (nm : String) (v : Version) (sig : RawSignature) :
    (t.message = .invalid → Tag.try_from_tag t = Tag.try_from_tag { t with message := .absent }) ∧
    (t.message = .invalid → Tag.try_from_tag t = .ok tag → tag.message = none) ∧
    (t.target_type = some ObjectType.commit → t.name = .invalid →
      Tag.try_from_tag t = .error .utf8Error) ∧
    (t.target_type = some ObjectType.commit → t.name = .valid nm →
      Version.parse (stripLeadingV nm) = .ok v → t.tagger = some sig →
      Signature.try_from sig = .error .utf8Error → Tag.try_from_tag t = .error .utf8Error) := by
  refine ⟨?_, ?_, ?_, ?_⟩
  · intro hm
    simp [Tag.try_from_tag, hm, RawText.toOpt]
  · intro hm h
    have := (tag_try_from_tag_ok h).2.2.2.1
    rw [this, hm]
    rfl
  · intro hty hn
    simp [Tag.try_from_tag, hty, hn, RawText.ok_or, RawText.toOpt, Bind.bind, Except.bind]
  · intro hty hn hv htg hsig
    simp [Tag.try_from_tag, hty, hn, RawText.ok_or, RawText.toOpt, hv, htg, taggerStep,
      hsig, Except.map, Bind.bind, Except.bind]

/-- C10, witness: `rawTagAnn` (invalid message) converts with no message;
`rawTagBadUtf8Name` (invalid name) and `rawTagBadTagger` (invalid tagger
name) fail with `Utf8Error`. -/
theorem claim_c10_witness :
    Tag.try_from_tag rawTagAnn = Tag.try_from_tag { rawTagAnn with message := .absent } ∧
    tag030.message = none ∧
    Tag.try_from_tag rawTagBadUtf8Name = .error .utf8Error ∧
    Tag.try_from_tag rawTagBadTagger = .error .utf8Error := by
  refine ⟨?_, ?_, ?_, ?_⟩
  · exact (claim_c10 rawTagAnn tag030 "x" tag030.version sigRawOk).1 (by decide)
  · exact (claim_c10 rawTagAnn tag030 "x" tag030.version sigRawOk).2.1 (by decide) (by decide)
  · exact (claim_c10 rawTagBadUtf8Name tag030 "x" tag030.version sigRawOk).2.2.1
      (by decide) (by decide)
  · exact (claim_c10 rawTagBadTagger tag030 "v0.4.0"
      { major := 0, minor := 4, patch := 0, pre := [] } sigRawBad).2.2.2
      (by decide) (by decide) (by decide) (by decide) (by decide)

end Jilu
